import Mathlib

/-!
Verification of the metadynamics biasing engine (Colvars fork).

This file gives a shallow embedding, in Lean 4, of the hill data model and of
the operations of `colvarbias_meta.cpp`, `colvar_grid` (scalar part),
and `colvars_memstream.h`, and proves or refutes the frozen claims about them.

Real-valued quantities of the C++ code (`cvm::real`, i.e. `double`) are
modelled as real numbers; machine integers as `ℤ`/`ℕ`; byte buffers as lists
of `ℕ` (each entry a byte value).  The geometric distance functions
`dist2`/`dist2_lgrad` belong to the external colvarvalue layer and are kept
as parameters of the embedding.
-/

open Classical

namespace Colvars

/-- One Gaussian hill, after `colvarbias_meta::hill` (fields as initialized by
the constructors in `colvarbias_meta.cpp`): deposition step `it`, cached value
`hill_value`, scale factor `sW`, weight `W`, centers, sigmas, and the replica
id (`none` models the empty string). Centers are scalar CV values. -/
structure Hill where
  it : ℤ
  hill_value : ℝ
  sW : ℝ
  W : ℝ
  centers : List ℝ
  sigmas : List ℝ
  replica : Option ℕ

/-- The five-argument hill constructor
(`colvarbias_meta::hill::hill(it_in, W_in, cv_values, cv_sigmas, replica_in)`):
sets `hill_value = 0`, `sW = 1`, and copies the remaining fields. -/
def makeHill (it_in : ℤ) (W_in : ℝ) (cv_values : List ℝ) (cv_sigmas : List ℝ)
    (replica_in : Option ℕ) : Hill :=
  { it := it_in, hill_value := 0, sW := 1, W := W_in,
    centers := cv_values, sigmas := cv_sigmas, replica := replica_in }

/-- Modelled from the spec: the hill energy accessor (declared in the missing
header `colvarbias_meta.h`).  §4.2 of the spec: "Accumulate
`energy += W · scale · value`", with `scale` the hill's scale factor `sW`. -/
noncomputable def Hill.energy (h : Hill) : ℝ := h.W * h.sW * h.hill_value

/-- The Gaussian exponent computed by `colvarbias_meta::calc_hills`:
`cv_sqdev = Σ_i dist2(x_i, center_i) / (sigma_i * sigma_i)` over the `n`
colvars; `d2 i` is colvar `i`'s `dist2` metric. -/
noncomputable def cv_sqdev (d2 : ℕ → ℝ → ℝ → ℝ) (n : ℕ) (x : ℕ → ℝ) (h : Hill) : ℝ :=
  ∑ i in Finset.range n,
    d2 i (x i) (h.centers.getD i 0) / (h.sigmas.getD i 0 * h.sigmas.getD i 0)

/-- The per-hill update performed inside `calc_hills`: if the exponent
exceeds 23 the cached hill value is set to 0, otherwise to
`exp(-0.5 * cv_sqdev)`. -/
noncomputable def calc_hill_update (d2 : ℕ → ℝ → ℝ → ℝ) (n : ℕ) (x : ℕ → ℝ)
    (h : Hill) : Hill :=
  if cv_sqdev d2 n x h > 23 then { h with hill_value := 0 }
  else { h with hill_value := Real.exp (-0.5 * cv_sqdev d2 n x h) }

/-- `colvarbias_meta::calc_hills(h_first, h_last, energy, values)`: walks the
hill range, refreshes each cached value, and accumulates
`energy += h->energy()`.  Returns the updated hills and the final energy. -/
noncomputable def calc_hills (d2 : ℕ → ℝ → ℝ → ℝ) (n : ℕ) (x : ℕ → ℝ) :
    List Hill → ℝ → List Hill × ℝ
  | [], energy => ([], energy)
  | h :: hs, energy =>
      let h1 := calc_hill_update d2 n x h
      let rest := calc_hills d2 n x hs (energy + h1.energy)
      (h1 :: rest.1, rest.2)

theorem calc_hills_fst (d2 : ℕ → ℝ → ℝ → ℝ) (n : ℕ) (x : ℕ → ℝ)
    (hs : List Hill) (e : ℝ) :
    (calc_hills d2 n x hs e).1 = hs.map (calc_hill_update d2 n x) := by
  induction hs generalizing e with
  | nil => rfl
  | cons h t ih => simp [calc_hills, ih]

theorem calc_hills_snd (d2 : ℕ → ℝ → ℝ → ℝ) (n : ℕ) (x : ℕ → ℝ)
    (hs : List Hill) (e : ℝ) :
    (calc_hills d2 n x hs e).2 =
      e + (hs.map (fun h => (calc_hill_update d2 n x h).energy)).sum := by
  induction hs generalizing e with
  | nil => simp [calc_hills]
  | cons h t ih => simp [calc_hills, ih]; ring

/-- Claim C1: for every hill in the evaluated range and every CV position,
`calc_hills` accumulates, for each hill whose exponent
`sq = Σ_i dist2(x_i, c_i)/σ_i²` is at most 23, the contribution
`W · exp(-sq/2)` into the energy, and for each hill with `sq > 23` the cached
hill value is set to 0 and the hill contributes nothing to the energy. -/
theorem calc_hills_energy_spec (d2 : ℕ → ℝ → ℝ → ℝ) (n : ℕ) (x : ℕ → ℝ)
    (hs : List Hill) (e0 : ℝ) (hsW : ∀ h ∈ hs, h.sW = 1) :
    (calc_hills d2 n x hs e0).2 =
      e0 + (hs.map (fun h =>
        if cv_sqdev d2 n x h > 23 then 0
        else h.W * Real.exp (-(cv_sqdev d2 n x h) / 2))).sum ∧
    ∀ h ∈ hs, cv_sqdev d2 n x h > 23 →
      (calc_hill_update d2 n x h).hill_value = 0 := by
  constructor
  · rw [calc_hills_snd]
    congr 1
    apply congrArg
    apply List.map_congr_left
    intro h hmem
    by_cases hgt : cv_sqdev d2 n x h > 23
    · simp [calc_hill_update, hgt, Hill.energy]
    · have : (-0.5 : ℝ) * cv_sqdev d2 n x h = -(cv_sqdev d2 n x h) / 2 := by ring
      simp [calc_hill_update, hgt, Hill.energy, hsW h hmem, this]
  · intro h _ hgt
    simp [calc_hill_update, hgt]

/-- Witness for C1: a single hill with center 0, sigma 1, weight 1, at CV
position 0 (scalar metric `dist2(a,b) = (a-b)²`). -/
theorem calc_hills_energy_spec_witness :
    (∀ h ∈ [makeHill 0 1 [0] [1] none], h.sW = 1) ∧
    ((calc_hills (fun _ a b => (a - b) * (a - b)) 1 (fun _ => 0)
        [makeHill 0 1 [0] [1] none] 0).2 =
      0 + ([makeHill 0 1 [0] [1] none].map (fun h =>
        if cv_sqdev (fun _ a b => (a - b) * (a - b)) 1 (fun _ => 0) h > 23 then 0
        else h.W * Real.exp
          (-(cv_sqdev (fun _ a b => (a - b) * (a - b)) 1 (fun _ => 0) h) / 2))).sum ∧
     ∀ h ∈ [makeHill 0 1 [0] [1] none],
       cv_sqdev (fun _ a b => (a - b) * (a - b)) 1 (fun _ => 0) h > 23 →
       (calc_hill_update (fun _ a b => (a - b) * (a - b)) 1 (fun _ => 0) h).hill_value
         = 0) :=
  ⟨by intro h hm; simp [makeHill] at hm; simp [hm, makeHill],
   calc_hills_energy_spec _ _ _ _ _
     (by intro h hm; simp [makeHill] at hm; simp [hm, makeHill])⟩

/-- The configuration and per-step inputs of `colvarbias_meta::update_bias`
that determine the deposited hill.  `target_dist_here` is
`target_dist->value(target_dist->get_colvars_index())`, `grid_energy_here` is
`hills_energy->value(curr_bin)`; `refl_low`/`refl_up` pair each reflection CV
index with its configured limit (`reflection_llimit_cv`/`reflection_llimit`
and the upper counterparts). -/
structure MetaParams where
  hill_weight : ℝ
  new_hill_freq : ℤ
  can_accumulate : Bool
  history_dependent : Bool
  well_tempered : Bool
  bias_temperature : ℝ
  boltzmann : ℝ
  ebmeta : Bool
  ebmeta_equil_steps : ℤ
  target_dist_here : ℝ
  use_grids : Bool
  grid_energy_here : ℝ
  refl_low : List (ℕ × ℝ)
  refl_up : List (ℕ × ℝ)
  comm_multiple : Bool
  replica_id : ℕ

/-- `colvarbias_meta::check_reflection_limits`: the hill is added unless the
current value of some reflection CV lies below its lower limit or above its
upper limit. -/
def check_reflection_limits (p : MetaParams) (x : ℕ → ℝ) : Prop :=
  (∀ il ∈ p.refl_low, ¬ x il.1 < il.2) ∧ (∀ il ∈ p.refl_up, ¬ x il.1 > il.2)

/-- The value of `hills_scale` right after the ebmeta block of `update_bias`:
starts at 1; under ebMeta it is multiplied by `1/target_dist_here` and, during
the first `ebmeta_equil_steps` steps, interpolated as
`λ + (1-λ)·scale` with `λ = (equil - step)/equil`. -/
noncomputable def ebmeta_factor (p : MetaParams) (step : ℤ) : ℝ :=
  if p.ebmeta then
    let s : ℝ := 1 * (1 / p.target_dist_here)
    if step ≤ p.ebmeta_equil_steps then
      let lam : ℝ := ((p.ebmeta_equil_steps - step : ℤ) : ℝ) /
        ((p.ebmeta_equil_steps : ℤ) : ℝ)
      lam + (1 - lam) * s
    else s
  else 1

/-- The hills energy `E_here` used by the well-tempered block of
`update_bias`: grid lookup at the current bin when grids are in use,
otherwise `calc_hills` over the not-yet-projected hills
(`new_hills_begin .. hills.end()`) starting from 0. -/
noncomputable def wt_energy_here (p : MetaParams) (d2 : ℕ → ℝ → ℝ → ℝ) (n : ℕ)
    (x : ℕ → ℝ) (newHills : List Hill) : ℝ :=
  if p.use_grids then p.grid_energy_here else (calc_hills d2 n x newHills 0).2

/-- The full `hills_scale` of `update_bias`: the ebmeta factor, then, under
well-tempered metadynamics, multiplication by
`exp(-E_here / (bias_temperature * boltzmann))`. -/
noncomputable def hills_scale (p : MetaParams) (d2 : ℕ → ℝ → ℝ → ℝ) (n : ℕ)
    (x : ℕ → ℝ) (newHills : List Hill) (step : ℤ) : ℝ :=
  if p.well_tempered then
    ebmeta_factor p step *
      Real.exp (-1 * wt_energy_here p d2 n x newHills /
        (p.bias_temperature * p.boltzmann))
  else ebmeta_factor p step

/-- The primary hill deposited by `colvarbias_meta::update_bias` at a given
step (`none` when no hill is deposited): requires the step to be a multiple
of `new_hill_freq`, data accumulation and history dependence to be enabled,
and the current position to be within all reflection limits; the hill has
weight `hill_weight * hills_scale` and the current centers and sigmas. -/
noncomputable def update_bias (p : MetaParams) (d2 : ℕ → ℝ → ℝ → ℝ) (n : ℕ)
    (colvar_values colvar_sigmas : List ℝ) (newHills : List Hill) (step : ℤ) :
    Option Hill :=
  if step % p.new_hill_freq = 0 ∧ p.can_accumulate ∧ p.history_dependent then
    if check_reflection_limits p (fun i => colvar_values.getD i 0) then
      some (makeHill step
        (p.hill_weight *
          hills_scale p d2 n (fun i => colvar_values.getD i 0) newHills step)
        colvar_values colvar_sigmas
        (if p.comm_multiple then some p.replica_id else none))
    else none
  else none

/-- Claim C2: with wellTempered enabled, the hill deposited at a step that is
a multiple of `newHillFrequency` has weight
`hillWeight · exp(-E_here / (bias_temperature · k_B))`, additionally
multiplied by the ebmeta factor, where `E_here` comes from the energy grid
when grids are in use and from the analytic sum over unprojected hills
otherwise. -/
theorem update_bias_well_tempered_weight (p : MetaParams)
    (d2 : ℕ → ℝ → ℝ → ℝ) (n : ℕ) (colvar_values colvar_sigmas : List ℝ)
    (newHills : List Hill) (step : ℤ)
    (hwt : p.well_tempered = true)
    (hstep : step % p.new_hill_freq = 0)
    (hacc : p.can_accumulate = true)
    (hhist : p.history_dependent = true)
    (hrefl : check_reflection_limits p (fun i => colvar_values.getD i 0)) :
    update_bias p d2 n colvar_values colvar_sigmas newHills step =
      some (makeHill step
        (p.hill_weight * ebmeta_factor p step *
          Real.exp (-(wt_energy_here p d2 n (fun i => colvar_values.getD i 0)
              newHills) /
            (p.bias_temperature * p.boltzmann)))
        colvar_values colvar_sigmas
        (if p.comm_multiple then some p.replica_id else none)) := by
  rw [update_bias, if_pos ⟨hstep, hacc, hhist⟩, if_pos hrefl]
  congr 1
  rw [makeHill, makeHill]
  simp only [Hill.mk.injEq, and_true, true_and]
  rw [hills_scale, if_pos hwt]
  ring_nf

/-- A concrete parameter set used by the C2 witness: one CV, grids on, grid
energy 2, deposition every step, no ebmeta, no reflection limits. -/
noncomputable def wtExampleParams : MetaParams :=
  { hill_weight := 1, new_hill_freq := 1, can_accumulate := true,
    history_dependent := true, well_tempered := true,
    bias_temperature := 300, boltzmann := 1, ebmeta := false,
    ebmeta_equil_steps := 0, target_dist_here := 1, use_grids := true,
    grid_energy_here := 2, refl_low := [], refl_up := [],
    comm_multiple := false, replica_id := 0 }

/-- Witness for C2: the well-tempered weight law evaluated at
`wtExampleParams`. -/
theorem update_bias_well_tempered_weight_witness :
    (wtExampleParams.well_tempered = true ∧
     (0 : ℤ) % wtExampleParams.new_hill_freq = 0 ∧
     check_reflection_limits wtExampleParams (fun i => ([(0 : ℝ)].getD i 0))) ∧
    update_bias wtExampleParams (fun _ a b => (a - b) * (a - b)) 1 [0] [1] [] 0 =
      some (makeHill 0
        (wtExampleParams.hill_weight * ebmeta_factor wtExampleParams 0 *
          Real.exp (-(wt_energy_here wtExampleParams
              (fun _ a b => (a - b) * (a - b)) 1
              (fun i => ([(0 : ℝ)].getD i 0)) []) /
            (wtExampleParams.bias_temperature * wtExampleParams.boltzmann)))
        [0] [1]
        (if wtExampleParams.comm_multiple then some wtExampleParams.replica_id
         else none)) :=
  ⟨⟨rfl, rfl, by constructor <;> intro il hmem <;> simp [wtExampleParams] at hmem⟩,
   update_bias_well_tempered_weight _ _ _ _ _ _ _ rfl rfl rfl rfl
     (by constructor <;> intro il hmem <;> simp [wtExampleParams] at hmem)⟩

/-- The hill containers owned by the bias: the main hill list and the
off-grid hill list. -/
structure HillsState where
  hills : List Hill
  hills_off_grid : List Hill

/-- `colvarbias_meta::add_hill`: appends the hill to the main list and, when
grids are in use and the center is within `3·⌊hill_width⌋ + 1` bins of a grid
boundary (`bin_dist` abstracts
`hills_energy->bin_distance_from_boundaries(·, true)`), also to the
off-grid list. -/
noncomputable def add_hill (use_grids : Bool) (bin_dist : List ℝ → ℝ)
    (hill_width : ℝ) (st : HillsState) (h : Hill) : HillsState :=
  { hills := st.hills ++ [h],
    hills_off_grid :=
      if use_grids then
        if bin_dist h.centers < 3 * (⌊hill_width⌋ : ℝ) + 1 then
          st.hills_off_grid ++ [h]
        else st.hills_off_grid
      else st.hills_off_grid }

/-- The sigmas of the primary hills when `hillWidth` is configured
(`colvarbias_meta::init`): `colvar_sigmas[i] = width_i * hill_width / 2`. -/
noncomputable def colvar_sigmas_init (widths : List ℝ) (hill_width : ℝ) :
    List ℝ :=
  widths.map (fun w => w * hill_width / 2)

/-- `colvarbias_meta::reflect_hill_monod(aa, h_scale, ref_lim)`: with
`h_w[i] = width_i * hill_width` and `tmps = 0.5 * h_w[aa]`, if
`√((ref_lim - x[aa])²) < reflection_int * tmps`, a hill with weight
`hill_weight * h_scale`, center mirrored to `2·ref_lim - x[aa]` on dimension
`aa` (others unchanged), and `h_w` passed as the constructor's sigmas is
appended through `add_hill`. -/
noncomputable def reflect_hill_monod (use_grids : Bool)
    (bin_dist : List ℝ → ℝ) (comm_multiple : Bool) (replica_id : ℕ)
    (hill_weight hill_width reflection_int : ℝ) (widths x : List ℝ)
    (step : ℤ) (aa : ℕ) (h_scale ref_lim : ℝ) (st : HillsState) : HillsState :=
  let h_w := widths.map (fun w => w * hill_width)
  let tmps := 0.5 * h_w.getD aa 0
  let tmpd := Real.sqrt ((ref_lim - x.getD aa 0) * (ref_lim - x.getD aa 0))
  if tmpd < reflection_int * tmps then
    add_hill use_grids bin_dist hill_width st
      (makeHill step (hill_weight * h_scale)
        (x.set aa (2 * ref_lim - x.getD aa 0)) h_w
        (if comm_multiple then some replica_id else none))
  else st

/-- Claim C3 (code bug): at upper reflection limit `L = 1`, CV value
`x = 0.95`, CV width 1, `hillWidth = 1` and `reflectionRange = 6`, the
reflected hill is deposited with center `2L - x = 1.05` but its sigmas are
the full widths `width · hill_width = [1]`, twice the primary hills' sigmas
`colvar_sigmas = [1/2]` — the code passes `h_w` where the hill constructor
expects sigmas, contradicting §4.3 of the spec ("an additional hill with the
same sigmas"). -/
theorem reflect_hill_monod_sigma_bug :
    (reflect_hill_monod false (fun _ => 0) false 0 1 1 6 [1] [0.95]
        0 0 1 1 ⟨[], []⟩).hills =
      [makeHill 0 1 [1.05] [1] none] ∧
    colvar_sigmas_init [1] 1 = [1 / 2] ∧
    (makeHill 0 1 [1.05] [1] none).sigmas ≠ colvar_sigmas_init [1] 1 := by
  refine ⟨?_, ?_, ?_⟩
  · rw [reflect_hill_monod]
    have habs : Real.sqrt (((1 : ℝ) - [(0.95 : ℝ)].getD 0 0) *
        ((1 : ℝ) - [(0.95 : ℝ)].getD 0 0)) = 0.05 := by
      rw [show ((1 : ℝ) - [(0.95 : ℝ)].getD 0 0) = 0.05 by norm_num]
      exact Real.sqrt_mul_self (by norm_num)
    simp only [habs]
    rw [if_pos (by norm_num)]
    simp [add_hill, makeHill]
    norm_num
  · simp [colvar_sigmas_init]
  · simp [makeHill, colvar_sigmas_init]

/-- `colvarbias_meta::project_hills(h_first, h_last, he, hg)`: every grid bin
(`binvals` lists the bin-center CV positions) accumulates the analytic energy
of the hills in the range; afterwards, when `keep_hills` is false, the entire
main hill list is erased.  The off-grid list is not touched.  Returns the
updated energy-grid data and the updated hill containers. -/
noncomputable def project_hills (d2 : ℕ → ℝ → ℝ → ℝ) (n : ℕ)
    (keep_hills : Bool) (binvals : List (ℕ → ℝ)) (he : List ℝ)
    (hs_range : List Hill) (st : HillsState) : List ℝ × HillsState :=
  (List.zipWith (fun x e => e + (calc_hills d2 n x hs_range 0).2) binvals he,
   { hills := if keep_hills then st.hills else [],
     hills_off_grid := st.hills_off_grid })

/-- Claim C4: after `project_hills` with `keep_hills` false the in-memory
hill list is empty — the whole list, not only the projected range — while
the off-grid hill list is unchanged; and `add_hill` had appended to the
off-grid list exactly the hills deposited within `3·⌊hill_width⌋ + 1` bins
of a grid boundary. -/
theorem project_hills_erase_frame (d2 : ℕ → ℝ → ℝ → ℝ) (n : ℕ) (keep : Bool)
    (binvals : List (ℕ → ℝ)) (he : List ℝ) (hs_range : List Hill)
    (st : HillsState) (use_grids : Bool) (bin_dist : List ℝ → ℝ)
    (hill_width : ℝ) (h : Hill)
    (hkeep : keep = false) (hug : use_grids = true)
    (hdist : bin_dist h.centers < 3 * (⌊hill_width⌋ : ℝ) + 1) :
    (project_hills d2 n keep binvals he hs_range st).2.hills = [] ∧
    (project_hills d2 n keep binvals he hs_range st).2.hills_off_grid =
      st.hills_off_grid ∧
    (add_hill use_grids bin_dist hill_width st h).hills = st.hills ++ [h] ∧
    (add_hill use_grids bin_dist hill_width st h).hills_off_grid =
      st.hills_off_grid ++ [h] := by
  subst hkeep hug
  refine ⟨by simp [project_hills], by simp [project_hills], rfl, ?_⟩
  simp [add_hill, if_pos hdist]

/-- Witness for C4: empty state, one hill with center on the boundary
(`bin_dist = 0 < 4`). -/
theorem project_hills_erase_frame_witness :
    (false = false ∧ true = true ∧
     (fun _ : List ℝ => (0 : ℝ)) (makeHill 0 1 [0] [1] none).centers <
       3 * ((⌊(1 : ℝ)⌋ : ℤ) : ℝ) + 1) ∧
    ((project_hills (fun _ a b => (a - b) * (a - b)) 1 false [] []
        [] ⟨[], []⟩).2.hills = [] ∧
     (project_hills (fun _ a b => (a - b) * (a - b)) 1 false [] []
        [] ⟨[], []⟩).2.hills_off_grid = ([] : List Hill) ∧
     (add_hill true (fun _ => 0) 1 ⟨[], []⟩
        (makeHill 0 1 [0] [1] none)).hills = [] ++ [makeHill 0 1 [0] [1] none] ∧
     (add_hill true (fun _ => 0) 1 ⟨[], []⟩
        (makeHill 0 1 [0] [1] none)).hills_off_grid =
       [] ++ [makeHill 0 1 [0] [1] none]) :=
  ⟨⟨rfl, rfl, by norm_num⟩,
   project_hills_erase_frame _ _ _ _ _ _ _ _ _ _ _ rfl rfl (by norm_num)⟩

/-- The keywords and delimiters of the formatted hill record. -/
inductive Key where
  | hill
  | braceOpen
  | braceClose
  | step
  | weight
  | centers
  | widths
  | replicaID
  deriving DecidableEq

/-- Tokens of the formatted state stream: keywords, integers
(step numbers), reals (weights, centers, widths) and replica ids. -/
inductive Tok where
  | key (k : Key)
  | tInt (n : ℤ)
  | tNum (x : ℝ)
  | tId (r : ℕ)

/-- Modelled from the spec: `read_state_data_key` (declared outside `src/`),
which probes the next token for an expected keyword, consuming it on a match
and leaving the stream untouched otherwise (so that optional keys can be
skipped). -/
def read_state_data_key_tok (k : Key) : List Tok → Bool × List Tok
  | Tok.key k1 :: rest =>
      if k1 = k then (true, rest) else (false, Tok.key k1 :: rest)
  | ts => (false, ts)

/-- Reading `n` consecutive real tokens (the `is >> h_centers[i]` /
`is >> h_sigmas[i]` loops); `none` models the stream error path. -/
def readNums : ℕ → List Tok → Option (List ℝ × List Tok)
  | 0, ts => some ([], ts)
  | n + 1, Tok.tNum x :: ts =>
      match readNums n ts with
      | some (vs, rest) => some (x :: vs, rest)
      | none => none
  | _ + 1, _ => none

/-- An optional scalar-valued key (the `weight` field of `read_hill`):
absent key leaves the default, present key must be followed by a number. -/
def parseOptNum (k : Key) (dflt : ℝ) (ts : List Tok) :
    Option (ℝ × List Tok) :=
  match read_state_data_key_tok k ts with
  | (false, _) => some (dflt, ts)
  | (true, ts1) =>
      match ts1 with
      | Tok.tNum x :: ts2 => some (x, ts2)
      | _ => none

/-- An optional vector-valued key (the `centers` and `widths` fields of
`read_hill`). -/
def parseOptNums (k : Key) (n : ℕ) (dflt : List ℝ) (ts : List Tok) :
    Option (List ℝ × List Tok) :=
  match read_state_data_key_tok k ts with
  | (false, _) => some (dflt, ts)
  | (true, ts1) => readNums n ts1

/-- The configuration of the bias reading a hill record
(`colvarbias_meta::read_hill_template_`). -/
structure ReadCfg where
  n : ℕ
  comm_multiple : Bool
  replica_id : ℕ
  state_file_step : ℤ
  restart_keep_hills : Bool
  use_grids : Bool
  hill_width : ℝ
  bin_dist : List ℝ → ℝ

/-- The `replicaID` block of `read_hill_template_`: only entered in
multiple-replicas mode; an id differing from this replica's id is an
error. -/
def parseReplica (cfg : ReadCfg) (ts : List Tok) :
    Option (Option ℕ × List Tok) :=
  if cfg.comm_multiple then
    match read_state_data_key_tok Key.replicaID ts with
    | (false, _) => some (none, ts)
    | (true, ts1) =>
        match ts1 with
        | Tok.tId r :: ts2 =>
            if r = cfg.replica_id then some (some r, ts2) else none
        | _ => none
  else some (none, ts)

/-- The outcome of `read_hill`: `fail` models the failbit path (stream
rewound to the record start), `ok` a good stream with the remaining tokens
and the updated hill containers. -/
inductive ReadResult where
  | fail (orig : List Tok)
  | ok (st : HillsState) (rest : List Tok)

/-- `colvarbias_meta::read_hill_template_` on the formatted stream: parses
`hill { step .. weight .. centers .. widths .. [replicaID ..] }` (widths are
halved into sigmas for backward compatibility); a hill whose step is at most
`state_file_step` is silently skipped unless `restart_keep_hills` is set;
otherwise the hill is appended as in `add_hill` (main list, plus the
off-grid list when its center is near a grid boundary). -/
noncomputable def read_hill (cfg : ReadCfg) (st : HillsState)
    (input : List Tok) : ReadResult :=
  match input with
  | Tok.key Key.hill :: Tok.key Key.braceOpen :: Tok.key Key.step ::
      Tok.tInt h_it :: ts4 =>
    (match parseOptNum Key.weight 0 ts4 with
     | none => ReadResult.fail input
     | some (h_weight, ts5) =>
       match parseOptNums Key.centers cfg.n (List.replicate cfg.n 0) ts5 with
       | none => ReadResult.fail input
       | some (h_centers, ts6) =>
         match parseOptNums Key.widths cfg.n (List.replicate cfg.n 0) ts6 with
         | none => ReadResult.fail input
         | some (h_widths, ts7) =>
           match parseReplica cfg ts7 with
           | none => ReadResult.fail input
           | some (h_replica, ts8) =>
             match ts8 with
             | Tok.key Key.braceClose :: rest =>
               if h_it ≤ cfg.state_file_step ∧
                   cfg.restart_keep_hills = false then
                 ReadResult.ok st rest
               else
                 ReadResult.ok
                   (add_hill cfg.use_grids cfg.bin_dist cfg.hill_width st
                     (makeHill h_it h_weight h_centers
                       (h_widths.map (fun w => w / 2)) h_replica))
                   rest
             | _ => ReadResult.fail input)
  | _ => ReadResult.fail input

/-- A formatted hill record, as laid out by
`colvarbias_meta::write_hill_template_`:
`hill { step <it> weight <W> centers <v..> widths <w..> [replicaID <id>] }`. -/
def hill_record (it : ℤ) (w : ℝ) (cs ws : List ℝ) (rep : Option ℕ) :
    List Tok :=
  [Tok.key Key.hill, Tok.key Key.braceOpen, Tok.key Key.step, Tok.tInt it,
   Tok.key Key.weight, Tok.tNum w, Tok.key Key.centers] ++
  cs.map Tok.tNum ++ [Tok.key Key.widths] ++ ws.map Tok.tNum ++
  (match rep with
   | some r => [Tok.key Key.replicaID, Tok.tId r]
   | none => []) ++
  [Tok.key Key.braceClose]

/-- `colvarbias_meta::write_hill_template_`: the widths field carries
`2 * sigma` for each CV (backward compatibility). -/
def write_hill (h : Hill) : List Tok :=
  hill_record h.it h.W h.centers (h.sigmas.map (fun s => 2 * s)) h.replica

theorem readNums_map (xs : List ℝ) (rest : List Tok) :
    readNums xs.length (xs.map Tok.tNum ++ rest) = some (xs, rest) := by
  induction xs with
  | nil => simp [readNums]
  | cons x t ih => simp [readNums, ih]

theorem readNums_map_of_length (n : ℕ) (xs : List ℝ) (rest : List Tok)
    (h : xs.length = n) :
    readNums n (xs.map Tok.tNum ++ rest) = some (xs, rest) := by
  subst h
  exact readNums_map xs rest

/-- Parsing a well-formed record: the record is consumed entirely, the
stream stays good, and the hill is appended exactly when it is newer than
the state file or `restart_keep_hills` is on. -/
theorem read_hill_record (cfg : ReadCfg) (st : HillsState) (it : ℤ) (w : ℝ)
    (cs ws : List ℝ) (rep : Option ℕ) (rest : List Tok)
    (hcs : cs.length = cfg.n) (hws : ws.length = cfg.n)
    (hrep : rep = if cfg.comm_multiple then some cfg.replica_id else none) :
    read_hill cfg st (hill_record it w cs ws rep ++ rest) =
      if it ≤ cfg.state_file_step ∧ cfg.restart_keep_hills = false then
        ReadResult.ok st rest
      else
        ReadResult.ok
          (add_hill cfg.use_grids cfg.bin_dist cfg.hill_width st
            (makeHill it w cs (ws.map (fun x => x / 2)) rep)) rest := by
  subst hrep
  obtain ⟨n, comm, rid, sfs, rkh, ug, hw, bd⟩ := cfg
  simp only at hcs hws ⊢
  cases comm <;>
    simp [hill_record, read_hill, parseOptNum, parseOptNums, parseReplica,
      read_state_data_key_tok, readNums_map_of_length, hcs, hws,
      List.append_assoc]

/-- Claim C5: for a hill with positive sigmas, `write_hill` emits a record
whose widths field is `2·sigma` for each CV, and `read_hill` on that record —
when the hill is newer than the state file or `restart_keep_hills` is on,
and the replica id matches — appends a hill with the same step, weight,
centers and sigmas (the stored widths being halved on reading). -/
theorem write_read_hill_roundtrip (cfg : ReadCfg) (st : HillsState) (h : Hill)
    (rest : List Tok)
    (hlc : h.centers.length = cfg.n) (hls : h.sigmas.length = cfg.n)
    (hpos : ∀ s ∈ h.sigmas, 0 < s)
    (hrep : h.replica = if cfg.comm_multiple then some cfg.replica_id else none)
    (hnew : cfg.state_file_step < h.it ∨ cfg.restart_keep_hills = true) :
    write_hill h =
      hill_record h.it h.W h.centers (h.sigmas.map (fun s => 2 * s))
        h.replica ∧
    read_hill cfg st (write_hill h ++ rest) =
      ReadResult.ok
        (add_hill cfg.use_grids cfg.bin_dist cfg.hill_width st
          (makeHill h.it h.W h.centers h.sigmas h.replica)) rest := by
  refine ⟨rfl, ?_⟩
  rw [write_hill,
    read_hill_record cfg st _ _ _ _ _ rest hlc (by simp [hls]) hrep]
  rw [if_neg]
  · have hhalf : (h.sigmas.map (fun s => 2 * s)).map (fun x => x / 2) =
        h.sigmas := by
      rw [List.map_map]
      have : h.sigmas.map ((fun x => x / 2) ∘ fun s => 2 * s) =
          h.sigmas.map id := by
        apply List.map_congr_left
        intro s _
        simp
      rw [this, List.map_id]
    rw [hhalf]
  · rcases hnew with h1 | h1
    · exact fun hc => absurd hc.1 (not_le.mpr h1)
    · exact fun hc => by simp [h1] at hc

/-- Witness for C5: one scalar CV, single replica, hill at step 0 with the
state file at step -1, center 0, sigma 1, weight 1. -/
theorem write_read_hill_roundtrip_witness :
    ((makeHill 0 1 [0] [1] none).centers.length = (1 : ℕ) ∧
     (makeHill 0 1 [0] [1] none).sigmas.length = (1 : ℕ) ∧
     (∀ s ∈ (makeHill 0 1 [0] [1] none).sigmas, 0 < s) ∧
     ((-1 : ℤ) < (makeHill 0 1 [0] [1] none).it ∨ False)) ∧
    (write_hill (makeHill 0 1 [0] [1] none) =
      hill_record (makeHill 0 1 [0] [1] none).it
        (makeHill 0 1 [0] [1] none).W (makeHill 0 1 [0] [1] none).centers
        ((makeHill 0 1 [0] [1] none).sigmas.map (fun s => 2 * s))
        (makeHill 0 1 [0] [1] none).replica ∧
     read_hill ⟨1, false, 0, -1, false, false, 1, fun _ => 0⟩ ⟨[], []⟩
        (write_hill (makeHill 0 1 [0] [1] none) ++ []) =
      ReadResult.ok
        (add_hill false (fun _ => 0) 1 ⟨[], []⟩
          (makeHill (makeHill 0 1 [0] [1] none).it
            (makeHill 0 1 [0] [1] none).W
            (makeHill 0 1 [0] [1] none).centers
            (makeHill 0 1 [0] [1] none).sigmas
            (makeHill 0 1 [0] [1] none).replica)) []) :=
  ⟨⟨rfl, rfl, by simp [makeHill], Or.inl (by decide)⟩,
   write_read_hill_roundtrip ⟨1, false, 0, -1, false, false, 1, fun _ => 0⟩
     ⟨[], []⟩ (makeHill 0 1 [0] [1] none) [] rfl rfl
     (by simp [makeHill]) rfl (Or.inl (by decide))⟩

/-- Claim C10: with `restart_keep_hills` false, `read_hill` on a well-formed
record whose step is at most `state_file_step` consumes the whole record,
leaves the stream good, and leaves both hill lists unchanged. -/
theorem read_hill_skips_old_hill (cfg : ReadCfg) (st : HillsState) (it : ℤ)
    (w : ℝ) (cs ws : List ℝ) (rep : Option ℕ) (rest : List Tok)
    (hcs : cs.length = cfg.n) (hws : ws.length = cfg.n)
    (hrep : rep = if cfg.comm_multiple then some cfg.replica_id else none)
    (hold : it ≤ cfg.state_file_step)
    (hrkh : cfg.restart_keep_hills = false) :
    read_hill cfg st (hill_record it w cs ws rep ++ rest) =
      ReadResult.ok st rest := by
  rw [read_hill_record cfg st it w cs ws rep rest hcs hws hrep,
    if_pos ⟨hold, hrkh⟩]

/-- Witness for C10: a record at step 3 against a state file at step 5 is
skipped with the state untouched. -/
theorem read_hill_skips_old_hill_witness :
    (([(0 : ℝ)].length = (1 : ℕ)) ∧ ([(2 : ℝ)].length = (1 : ℕ)) ∧
     ((3 : ℤ) ≤ (5 : ℤ))) ∧
    read_hill ⟨1, false, 0, 5, false, false, 1, fun _ => 0⟩
      ⟨[makeHill 0 1 [0] [1] none], []⟩
      (hill_record 3 1 [0] [2] none ++ []) =
      ReadResult.ok ⟨[makeHill 0 1 [0] [1] none], []⟩ [] :=
  ⟨⟨rfl, rfl, by decide⟩,
   read_hill_skips_old_hill ⟨1, false, 0, 5, false, false, 1, fun _ => 0⟩
     ⟨[makeHill 0 1 [0] [1] none], []⟩ 3 1 [0] [2] none [] rfl rfl rfl
     (by decide) rfl⟩

/-- `sizeof(size_t)` on the 64-bit platforms the module targets. -/
def size_t_bytes : ℕ := 8

/-- Little-endian byte image of an unsigned value in `k` bytes (the result
of `memcpy` from a `size_t`). -/
def leBytes : ℕ → ℕ → List ℕ
  | 0, _ => []
  | k + 1, v => (v % 256) :: leBytes k (v / 256)

/-- The value read back by `memcpy` into a `size_t` from a byte image. -/
def leValue : List ℕ → ℕ
  | [] => 0
  | b :: bs => b + 256 * leValue bs

/-- `memcpy(buf + off, bs.data(), bs.length)`: overwrite `bs.length` bytes of
`buf` starting at offset `off`. -/
def writeBytesAt (buf : List ℕ) (off : ℕ) (bs : List ℕ) : List ℕ :=
  buf.take off ++ bs ++ buf.drop (off + bs.length)

/-- `cvm::memory_stream` (colvars_memstream.h): an internal byte buffer with
a write position `data_length_`, a capacity bound `max_length_`, a read
position and an error code; `external_output` models a non-null
`external_output_buffer_`. -/
structure MemoryStream where
  external_output : Bool
  internal_buffer : List ℕ
  data_length : ℕ
  max_length : ℕ
  error_code : ℤ
  read_pos : ℕ

/-- The writing constructor `memory_stream(max_length)`: empty internal
buffer. -/
def MemoryStream.fresh (max_length : ℕ) : MemoryStream :=
  ⟨false, [], 0, max_length, 0, 0⟩

/-- The boolean cast `operator bool()`: the stream is good when the error
code is zero. -/
def MemoryStream.good (s : MemoryStream) : Prop := s.error_code = 0

/-- `memory_stream::expand_ouput_buffer(add_bytes)`: grows the internal
buffer by `add_bytes` zero bytes, or sets the error code when the buffer is
external or the capacity would be exceeded; success is tested afterwards as
`error_code == 0`. -/
def expand_ouput_buffer (s : MemoryStream) (add_bytes : ℕ) : MemoryStream :=
  if s.external_output then { s with error_code := 1 }
  else if s.internal_buffer.length + add_bytes ≤ s.max_length then
    { s with internal_buffer :=
        s.internal_buffer ++ List.replicate add_bytes 0 }
  else { s with error_code := 1 }

/-- `memory_stream::write_vector<T>`: an element type of size `szT` bytes,
the vector given as its elements' byte images.  The buffer is grown by
`sizeof(size_t) + n·sizeof(T)`, the length `n` is `memcpy`-ed at the write
position, the write position is advanced by `sizeof(T)` — exactly as in the
source, where `incr_write_pos(sizeof(T))` follows the copy of the `size_t`
length — and the element bytes are `memcpy`-ed at the new position. -/
def write_vector (szT : ℕ) (t : List (List ℕ)) (s : MemoryStream) :
    MemoryStream :=
  let vector_length := t.length
  let new_data_size := size_t_bytes + szT * vector_length
  let s1 := expand_ouput_buffer s new_data_size
  if s1.error_code = 0 then
    let b2 := writeBytesAt s1.internal_buffer s1.data_length
      (leBytes size_t_bytes vector_length)
    let dl2 := s1.data_length + szT
    let b3 := writeBytesAt b2 dl2 t.flatten
    { s1 with internal_buffer := b3,
              data_length := dl2 + szT * vector_length }
  else s1

/-- Splitting `n` elements of `szT` bytes each out of a flat byte image. -/
def chunksN (szT : ℕ) : ℕ → List ℕ → List (List ℕ)
  | 0, _ => []
  | n + 1, bs => bs.take szT :: chunksN szT n (bs.drop szT)

/-- `memory_stream::read_vector<T>`: `begin_reading` sets the error code to
-1; if 8 bytes remain, the length `n` is read and the read position
advanced; if `n·sizeof(T)` more bytes remain, the elements are copied out
and `done_reading` clears the error code.  The second component is the
vector read back (`none` when the argument vector is left untouched). -/
def read_vector (szT : ℕ) (s : MemoryStream) :
    MemoryStream × Option (List (List ℕ)) :=
  let s0 : MemoryStream := { s with error_code := -1 }
  if size_t_bytes ≤ s0.data_length - s0.read_pos then
    let vector_length :=
      leValue ((s0.internal_buffer.drop s0.read_pos).take size_t_bytes)
    let s1 : MemoryStream := { s0 with read_pos := s0.read_pos + size_t_bytes }
    if vector_length * szT ≤ s1.data_length - s1.read_pos then
      let bytes := (s1.internal_buffer.drop s1.read_pos).take
        (vector_length * szT)
      (({ s1 with read_pos := s1.read_pos + vector_length * szT,
                  error_code := 0 } : MemoryStream),
       some (chunksN szT vector_length bytes))
    else (s1, none)
  else (s0, none)

/-- Claim C6 (code bug): writing the one-element `vector<unsigned char>`
`{5}` (element size 1 ≠ sizeof(size_t)) to a fresh stream advances the write
position by `sizeof(T) = 1` after the 8-byte length prefix, so the element
byte lands inside the prefix, the recorded data length is 2 instead of 9,
the data region is not a length prefix followed by the elements, and
`read_vector` fails (stream not good, vector not returned) instead of
returning the original vector. -/
theorem write_vector_size1_roundtrip_fails :
    (write_vector 1 [[5]] (MemoryStream.fresh (2 ^ 36))).data_length = 2 ∧
    (write_vector 1 [[5]] (MemoryStream.fresh (2 ^ 36))).internal_buffer.take
        (write_vector 1 [[5]] (MemoryStream.fresh (2 ^ 36))).data_length ≠
      leBytes size_t_bytes 1 ++ [5] ∧
    (read_vector 1 (write_vector 1 [[5]] (MemoryStream.fresh (2 ^ 36)))).2 =
      none ∧
    ¬ (read_vector 1
        (write_vector 1 [[5]] (MemoryStream.fresh (2 ^ 36)))).1.good := by
  refine ⟨by decide, by decide, by decide, ?_⟩
  show ¬ (read_vector 1
      (write_vector 1 [[5]] (MemoryStream.fresh (2 ^ 36)))).1.error_code = 0
  decide

/-- `colvar_grid_scalar::maximum_value` (grid code): starts from `data[0]`
and keeps the larger value over all entries. -/
noncomputable def maximum_value (data : List ℝ) : ℝ :=
  data.foldl (fun m v => if v > m then v else m) (data.headD 0)

theorem init_le_foldl_if_max (data : List ℝ) (a : ℝ) :
    a ≤ data.foldl (fun m v => if v > m then v else m) a := by
  induction data generalizing a with
  | nil => simp
  | cons h t ih =>
      refine le_trans ?_ (ih (if h > a then h else a))
      by_cases hc : h > a
      · rw [if_pos hc]; linarith
      · rw [if_neg hc]

theorem mem_le_foldl_if_max (data : List ℝ) (a : ℝ) :
    ∀ v ∈ data, v ≤ data.foldl (fun m v => if v > m then v else m) a := by
  induction data generalizing a with
  | nil => simp
  | cons h t ih =>
      intro v hv
      rcases List.mem_cons.mp hv with rfl | hvt
      · refine le_trans ?_ (init_le_foldl_if_max t (if v > a then v else a))
        by_cases hc : v > a
        · rw [if_pos hc]
        · rw [if_neg hc]; linarith [not_lt.mp hc]
      · exact ih _ v hvt

theorem mem_le_maximum_value (data : List ℝ) :
    ∀ v ∈ data, v ≤ maximum_value data :=
  mem_le_foldl_if_max data (data.headD 0)

/-- The PMF values produced by `colvarbias_meta::write_pmf` for one grid:
the optional ebMeta correction (`v + T·k_B·ln target` where the target
distribution is positive, else 0), then `add_constant(-max)`,
`multiply_constant(-1)`, and, under well-tempered metadynamics,
multiplication by `(bias_temperature + T)/bias_temperature`. -/
noncomputable def write_pmf_data (ebmeta : Bool) (target : List ℝ) (T kB : ℝ)
    (well_tempered : Bool) (bias_temperature : ℝ) (data : List ℝ) : List ℝ :=
  let d1 := if ebmeta then
      List.zipWith (fun v tv => if tv > 0 then v + T * kB * Real.log tv else 0)
        data target
    else data
  let m := maximum_value d1
  let d2 := d1.map (fun v => v + -1 * m)
  let d3 := d2.map (fun v => -1 * v)
  if well_tempered then
    d3.map (fun v => (bias_temperature + T) / bias_temperature * v)
  else d3

/-- Claim C7 counterexample: the unrestricted claim fails on `write_pmf`.
(a) With ebMeta active (target distribution `[1, e]`, `T = kB = 1`, no
well-tempering, accumulated bias energy `[0, 0]`): bin 0 attains the maximum
accumulated bias energy, yet its written value is 1 — not
`s·(E_max - E(bin)) = 0` — because the grid is first corrected by
`T·k_B·ln(target)`.  (b) With well-tempered scaling and
`bias_temperature = -1/2` — accepted by `init_well_tempered_params`, which
only rejects the `-1.0` sentinel — the value written for bin 0 of `[0, 1]`
is `-1`, which is negative. -/
theorem write_pmf_values_counterexample :
    ((write_pmf_data true [1, Real.exp 1] 1 1 false 1 [0, 0]).getD 0 0 = 1 ∧
     ([0, 0] : List ℝ).getD 0 0 = maximum_value [0, 0] ∧
     ¬ (write_pmf_data true [1, Real.exp 1] 1 1 false 1 [0, 0]).getD 0 0 =
         1 * (maximum_value [0, 0] - ([0, 0] : List ℝ).getD 0 0) ∧
     ¬ (write_pmf_data true [1, Real.exp 1] 1 1 false 1 [0, 0]).getD 0 0 =
         0) ∧
    ((write_pmf_data false [] 1 1 true (-(1 / 2)) [0, 1]).getD 0 0 = -1 ∧
     ¬ (0 : ℝ) ≤ (write_pmf_data false [] 1 1 true (-(1 / 2)) [0, 1]).getD
         0 0) := by
  have ha : (write_pmf_data true [1, Real.exp 1] 1 1 false 1 [0, 0]).getD 0 0
      = 1 := by
    norm_num [write_pmf_data, maximum_value, Real.log_one, Real.log_exp,
      Real.exp_pos, List.zipWith, List.foldl, List.map, List.getD,
      List.headD]
  have hb : (write_pmf_data false [] 1 1 true (-(1 / 2)) [0, 1]).getD 0 0
      = -1 := by
    norm_num [write_pmf_data, maximum_value, List.foldl, List.map,
      List.getD, List.headD]
  have hmax : maximum_value [(0 : ℝ), 0] = 0 := by
    norm_num [maximum_value, List.foldl, List.headD]
  refine ⟨⟨ha, by simp [hmax], ?_, ?_⟩, hb, ?_⟩
  · rw [ha, hmax]
    norm_num
  · rw [ha]
    norm_num
  · rw [hb]
    norm_num

/-- Claim C7 as amended: in a non-ebMeta configuration, every PMF value
written equals `s · (E_max - E(bin))` with
`s = (bias_temperature + T)/bias_temperature` under well-tempered
metadynamics and `s = 1` otherwise; when moreover the bias temperature is
positive and the simulation temperature non-negative whenever well-tempering
is on, each written value is non-negative and a bin attaining the maximum is
written as 0. -/
theorem write_pmf_values (ebmeta : Bool) (target : List ℝ) (T kB : ℝ)
    (wt : Bool) (bT : ℝ) (data : List ℝ)
    (heb : ebmeta = false) (hbT : wt = true → 0 < bT ∧ 0 ≤ T) :
    ∀ i < data.length,
      (write_pmf_data ebmeta target T kB wt bT data).getD i 0 =
        (if wt then (bT + T) / bT else 1) *
          (maximum_value data - data.getD i 0) ∧
      0 ≤ (write_pmf_data ebmeta target T kB wt bT data).getD i 0 ∧
      (data.getD i 0 = maximum_value data →
        (write_pmf_data ebmeta target T kB wt bT data).getD i 0 = 0) := by
  subst heb
  intro i hi
  have hvmem : data.getD i 0 ∈ data := by
    rw [List.getD_eq_getElem data 0 hi]
    exact List.getElem_mem hi
  have hle : data.getD i 0 ≤ maximum_value data :=
    mem_le_maximum_value data _ hvmem
  have hs : 0 ≤ (if wt then (bT + T) / bT else 1 : ℝ) := by
    by_cases hwt : wt = true
    · rw [if_pos hwt]
      rcases hbT hwt with ⟨h1, h2⟩
      exact div_nonneg (by linarith) (le_of_lt h1)
    · simp at hwt
      rw [hwt]
      norm_num
  have hval : (write_pmf_data false target T kB wt bT data).getD i 0 =
      (if wt then (bT + T) / bT else 1) *
        (maximum_value data - data.getD i 0) := by
    by_cases hwt : wt = true <;>
      simp [write_pmf_data, hwt, List.getD_eq_getElem, List.length_map, hi,
        List.getElem_map] <;> ring_nf <;> tauto
  refine ⟨hval, ?_, ?_⟩
  · rw [hval]
    exact mul_nonneg hs (by linarith)
  · intro hmax
    rw [hval, hmax]
    ring

/-- Witness for C7: data `[1, 2]`, no ebmeta, no well-tempered scaling,
checked at both bins. -/
theorem write_pmf_values_witness :
    (false = false ∧
     (false = true → (0 : ℝ) < 1 ∧ (0 : ℝ) ≤ 0)) ∧
    (∀ i < ([1, 2] : List ℝ).length,
      (write_pmf_data false [] 0 0 false 1 [1, 2]).getD i 0 =
        (if false then ((1 : ℝ) + 0) / 1 else 1) *
          (maximum_value [1, 2] - ([1, 2] : List ℝ).getD i 0) ∧
      0 ≤ (write_pmf_data false [] 0 0 false 1 [1, 2]).getD i 0 ∧
      (([1, 2] : List ℝ).getD i 0 = maximum_value [1, 2] →
        (write_pmf_data false [] 0 0 false 1 [1, 2]).getD i 0 = 0)) :=
  ⟨⟨rfl, fun h => absurd h (by decide)⟩,
   write_pmf_values false [] 0 0 false 1 [1, 2] rfl
     (fun h => absurd h (by decide))⟩

/-- The ρ selection loop of `colvar_grid_scalar::simplexproj`: over the
descending-sorted probabilities, `sump` accumulates the prefix sum and `rho`
records the last index `i+1` at which
`prob[i] + (1/(i+1))·(1 - sump) > 0`. -/
def simplexprojRho (prob : List ℚ) : ℕ :=
  (prob.enum.foldl
    (fun acc p =>
      let sump := acc.1 + p.2
      let rhovec := p.2 + 1 / ((p.1 : ℚ) + 1) * (1 - sump)
      (sump, if rhovec > 0 then p.1 + 1 else acc.2))
    ((0 : ℚ), (0 : ℕ))).2

/-- The write-back loop of `simplexproj`: non-zero grid entries are replaced
by the successive projected probabilities, zero entries are kept. -/
def simplexWriteback : List ℚ → List ℚ → List ℚ
  | [], _ => []
  | d :: ds, ps =>
      if d ≠ 0 then ps.headD 0 :: simplexWriteback ds ps.tail
      else d :: simplexWriteback ds ps

/-- `colvar_grid_scalar::simplexproj` (Wang–Carreira-Perpiñán 2003): collect
the non-zero entries, sort a copy in descending order, find ρ, shift every
collected entry by `λ = (1/ρ)(1 - Σ_{i<ρ} p[i])` clamping at 0, and write the
results back over the non-zero entries. -/
def simplexproj (data : List ℚ) : List ℚ :=
  let probold := data.filter (fun v => v ≠ 0)
  let prob := (probold.insertionSort (· ≤ ·)).reverse
  let rho := simplexprojRho prob
  let sump := (prob.take rho).sum
  let lambdav := 1 / (rho : ℚ) * (1 - sump)
  let probnew := probold.map (fun p =>
    if p + lambdav < 0 then 0 else p + lambdav)
  simplexWriteback data probnew

/-- Claim C8: on the grid data `[0.6, 0.3, 0.2, 0.1]`, `simplexproj`
produces data summing to 1, with every entry non-negative, and preserving
the relative order of the entries. -/
theorem simplexproj_example :
    (simplexproj [6/10, 3/10, 2/10, 1/10]).sum = 1 ∧
    (∀ v ∈ simplexproj [6/10, 3/10, 2/10, 1/10], 0 ≤ v) ∧
    (∀ i ∈ Finset.range 4, ∀ j ∈ Finset.range 4,
      ([6/10, 3/10, 2/10, 1/10] : List ℚ).getD j 0 ≤
        ([6/10, 3/10, 2/10, 1/10] : List ℚ).getD i 0 →
      (simplexproj [6/10, 3/10, 2/10, 1/10]).getD j 0 ≤
        (simplexproj [6/10, 3/10, 2/10, 1/10]).getD i 0) := by
  have hres : simplexproj [6/10, 3/10, 2/10, 1/10] =
      [11/20, 1/4, 3/20, 1/20] := by
    norm_num [simplexproj, simplexprojRho, simplexWriteback,
      List.insertionSort, List.orderedInsert, List.enum, List.enumFrom]
  rw [hres]
  refine ⟨by norm_num, ?_, ?_⟩
  · intro v hv
    simp at hv
    rcases hv with rfl | rfl | rfl | rfl <;> norm_num
  · intro i hi j hj
    simp [Finset.mem_range] at hi hj
    interval_cases i <;> interval_cases j <;> simp <;> norm_num

/-- The configuration facts consulted by
`colvarbias_meta::init_replicas_params`: whether `multipleReplicas` was set,
whether a replica id is available (from the config key or from the
communicator), whether the registry file name was given, the replica update
frequency, and the `expandBoundaries`/`keepHills` flags. -/
structure ReplicasParams where
  comm_multiple : Bool
  keep_hills : Bool
  replica_id_given : Bool
  replica_from_proxy : Bool
  registry_given : Bool
  replica_update_freq : ℕ
  expand_grids : Bool

/-- The success status. -/
def COLVARS_OK : ℤ := 0

/-- Modelled from the spec: the nonzero input-error status of §7
(`COLVARS_INPUT_ERROR`, defined outside `src/`); `cvm::error` returns the
status it is given. -/
def COLVARS_INPUT_ERROR : ℤ := 1

/-- `colvarbias_meta::init_replicas_params`: in multiple-replicas mode the
checks run in source order — missing replica id, missing registry file name,
zero update frequency, `expandBoundaries`, and finally `keepHills`; each
failure returns an input error. -/
def init_replicas_params (p : ReplicasParams) : ℤ :=
  if p.comm_multiple then
    if ¬ (p.replica_id_given ∨ p.replica_from_proxy) then COLVARS_INPUT_ERROR
    else if ¬ p.registry_given then COLVARS_INPUT_ERROR
    else if p.replica_update_freq = 0 then COLVARS_INPUT_ERROR
    else if p.expand_grids then COLVARS_INPUT_ERROR
    else if p.keep_hills then COLVARS_INPUT_ERROR
    else COLVARS_OK
  else COLVARS_OK

/-- Claim C9: a configuration with both `multipleReplicas` and `keepHills`
enabled is always rejected by `init_replicas_params` with an input error —
the function never returns success for it. -/
theorem init_replicas_params_rejects_keep_hills (p : ReplicasParams)
    (hm : p.comm_multiple = true) (hk : p.keep_hills = true) :
    init_replicas_params p = COLVARS_INPUT_ERROR ∧
    COLVARS_INPUT_ERROR ≠ COLVARS_OK := by
  refine ⟨?_, by decide⟩
  rw [init_replicas_params, if_pos (by simp [hm])]
  split_ifs <;> simp_all

/-- Witness for C9: multiple replicas with an otherwise valid configuration
and `keepHills` on. -/
theorem init_replicas_params_rejects_keep_hills_witness :
    ((⟨true, true, true, false, true, 1, false⟩ :
        ReplicasParams).comm_multiple = true ∧
     (⟨true, true, true, false, true, 1, false⟩ :
        ReplicasParams).keep_hills = true) ∧
    (init_replicas_params ⟨true, true, true, false, true, 1, false⟩ =
        COLVARS_INPUT_ERROR ∧
     COLVARS_INPUT_ERROR ≠ COLVARS_OK) :=
  ⟨⟨rfl, rfl⟩,
   init_replicas_params_rejects_keep_hills
     ⟨true, true, true, false, true, 1, false⟩ rfl rfl⟩

end Colvars
